import Mathlib

/-!
Verification of the asynchronous parameter-synchronization engine
(MultiversoWrapper, Source/Common/Include/MultiversoWrapper.h) against its
specification.  The C++ code is shallowly embedded: parameter buffers become
lists of rationals, the parameter-table client becomes an explicit trace of
operations together with an oracle supplying the merged snapshot that each
BatchLoad returns, and double/float arithmetic is modelled exactly over the
rationals.  Machine counters are modelled as natural numbers.
-/

namespace MultiversoWrapper

/-! Layout Planner: the partitioning computed in MultiversoWrapper::Init
(lines 424-431 of MultiversoWrapper.h). -/

/-- Partition size for worker i (line 429 of Init): totalLength / nClients
plus one extra element for the first totalLength mod nClients workers. -/
def sizeEachServer (total n i : ℕ) : ℕ :=
  if i < total % n then total / n + 1 else total / n

/-- Partition offset for worker i: the running sum idx accumulated across
the loop in Init (lines 425-431). -/
def idxEachServer (total n : ℕ) : ℕ → ℕ
  | 0 => 0
  | i + 1 => idxEachServer total n i + sizeEachServer total n i

/-- PartitionMap: worker index to its (offset, size) pair. -/
def partitionMap (total n : ℕ) : List (ℕ × ℕ) :=
  (List.range n).map fun i => (idxEachServer total n i, sizeEachServer total n i)

/-- Closed form of the partition offsets. -/
lemma idxEachServer_eq (total n : ℕ) :
    ∀ i, idxEachServer total n i = i * (total / n) + min i (total % n) := by
  intro i
  induction i with
  | zero => simp [idxEachServer]
  | succ i ih =>
    rw [idxEachServer, ih, sizeEachServer]
    rcases lt_or_ge i (total % n) with h | h
    · rw [if_pos h, min_eq_left h.le, min_eq_left (Nat.succ_le_of_lt h)]
      simp [Nat.succ_eq_add_one]
      ring
    · rw [if_neg (not_lt.mpr h), min_eq_right h,
        min_eq_right (le_trans h (Nat.le_succ i))]
      ring

/-- Partition offsets telescope to the total length. -/
lemma idxEachServer_total (total n : ℕ) (hn : 0 < n) :
    idxEachServer total n n = total := by
  rw [idxEachServer_eq]
  have h1 : total % n < n := Nat.mod_lt _ hn
  rw [min_eq_right (le_of_lt h1)]
  exact Nat.div_add_mod total n

/-- C1: for totalLength > 0 and workerCount > 0 the PartitionMap consists of
contiguous, disjoint ranges covering [0, totalLength) exactly (offset 0 is 0,
each offset is the previous offset plus the previous size, and the offsets
telescope to totalLength), partition sizes differ by at most one element, the
remainder totalLength mod workerCount goes one extra element each to the
first remainder partitions, and for totalLength = 8, workerCount = 3 the
partitions are (0,3), (3,3), (6,2). -/
theorem partition_coverage (total n : ℕ) (ht : 0 < total) (hn : 0 < n) :
    idxEachServer total n 0 = 0 ∧
    (∀ i, idxEachServer total n (i + 1) =
        idxEachServer total n i + sizeEachServer total n i) ∧
    idxEachServer total n n = total ∧
    (∀ i, sizeEachServer total n i =
        total / n + if i < total % n then 1 else 0) ∧
    (∀ i j, sizeEachServer total n i ≤ sizeEachServer total n j + 1) ∧
    partitionMap 8 3 = [(0, 3), (3, 3), (6, 2)] := by
  refine ⟨rfl, fun i => rfl, idxEachServer_total total n hn,
    fun i => ?_, fun i j => ?_, by decide⟩
  · unfold sizeEachServer
    split <;> omega
  · unfold sizeEachServer
    split <;> split <;> omega

/-- Witness for C1 at totalLength = 8, workerCount = 3. -/
theorem partition_coverage_w :
    (0 : ℕ) < 8 ∧ (0 : ℕ) < 3 ∧ idxEachServer 8 3 3 = 8 :=
  ⟨by decide, by decide,
    (partition_coverage 8 3 (by decide) (by decide)).2.2.1⟩

/-! Coefficient Policy (AdjustLearningRateatBeginning, lines 40-45, and
getUpdateCoefficient, lines 472-489). -/

/-- Ramp-policy selector (lines 40-45). -/
inductive AdjustLearningRateatBeginning
  | none
  | linearly
  | staircase
deriving DecidableEq

/-- Fixed ramp configuration captured at construction: the policy type,
the adjust coefficient and the ramp length in rounds (adjustnbmb). -/
structure CoefConfig where
  adjusttype : AdjustLearningRateatBeginning
  adjustcoefficient : ℚ
  adjustnbmb : ℕ
deriving DecidableEq

/-- getUpdateCoefficient (lines 472-489), applied to the round counter
commCnt.  Doubles are modelled as rationals; the size_t division
commCnt / adjustnbmb is Nat division as in the source. -/
def getUpdateCoefficient (cfg : CoefConfig) (commCnt : ℕ) : ℚ :=
  match cfg.adjusttype with
  | .none => 1
  | .linearly =>
      min 1 (max 0 (cfg.adjustcoefficient +
        (1 - cfg.adjustcoefficient) / (cfg.adjustnbmb : ℚ) * (commCnt : ℚ)))
  | .staircase =>
      min 1 (max 0 (cfg.adjustcoefficient *
        ((commCnt / cfg.adjustnbmb + 1 : ℕ) : ℚ)))

lemma getUpdateCoefficient_none (c : ℚ) (nb r : ℕ) :
    getUpdateCoefficient ⟨.none, c, nb⟩ r = 1 := rfl

lemma getUpdateCoefficient_linearly (c : ℚ) (nb r : ℕ) :
    getUpdateCoefficient ⟨.linearly, c, nb⟩ r =
      min 1 (max 0 (c + (1 - c) / (nb : ℚ) * (r : ℚ))) := rfl

lemma getUpdateCoefficient_staircase (c : ℚ) (nb r : ℕ) :
    getUpdateCoefficient ⟨.staircase, c, nb⟩ r =
      min 1 (max 0 (c * ((r / nb + 1 : ℕ) : ℚ))) := rfl

/-- Clamp to the unit interval: the min(1, max(0, x)) pattern of the code. -/
def clamp01 (x : ℚ) : ℚ := min 1 (max 0 x)

/-- Coefficient Policy exactly as worded in the specification (section 4.5):
None is constant 1, Linearly and Staircase are the clamped ramp formulas. -/
def coefficientPolicySpec (cfg : CoefConfig) (roundIndex : ℕ) : ℚ :=
  match cfg.adjusttype with
  | .none => 1
  | .linearly => clamp01 (cfg.adjustcoefficient +
      (1 - cfg.adjustcoefficient) / (cfg.adjustnbmb : ℚ) * (roundIndex : ℚ))
  | .staircase => clamp01 (cfg.adjustcoefficient *
      ((roundIndex / cfg.adjustnbmb + 1 : ℕ) : ℚ))

/-- C6: for every round index the coefficient is a pure function of the round
index and the fixed configuration, equals the specification formulas
(constant 1 for None, the clamped linear ramp for Linearly, the clamped
staircase for Staircase), and lies in [0, 1]. -/
theorem coefficient_formula (cfg : CoefConfig) (r : ℕ) :
    getUpdateCoefficient cfg r = coefficientPolicySpec cfg r ∧
    0 ≤ getUpdateCoefficient cfg r ∧ getUpdateCoefficient cfg r ≤ 1 := by
  obtain ⟨ty, c, nb⟩ := cfg
  cases ty <;>
    refine ⟨rfl, ?_, ?_⟩ <;>
    simp [getUpdateCoefficient] <;>
    first
      | norm_num
      | exact le_min (by norm_num) (le_max_left 0 _)
      | exact min_le_left 1 _

lemma clamp01_mono {x y : ℚ} (h : x ≤ y) : clamp01 x ≤ clamp01 y :=
  min_le_min le_rfl (max_le_max le_rfl h)

/-- Counterexample for C7: with adjustCoefficient = 2 (> 1) and
rampRounds = 1 the Linearly factor strictly decreases from round 0 to
round 2, and at round 2 it lies strictly below adjustCoefficient, so the
claimed monotonicity and the claimed lower bound both fail. -/
theorem coefficient_monotonicity_cex :
    getUpdateCoefficient ⟨.linearly, 2, 1⟩ 2 <
      getUpdateCoefficient ⟨.linearly, 2, 1⟩ 0 ∧
    getUpdateCoefficient ⟨.linearly, 2, 1⟩ 2 < (2 : ℚ) := by
  constructor <;> norm_num [getUpdateCoefficient]

/-- C7 (amended): provided adjustCoefficient ≤ 1, the Linearly factor is
non-decreasing in the round index and lies in [adjustCoefficient, 1]; the
Staircase factor is unconditionally a non-decreasing step function whose
value changes only at multiples of rampRounds. -/
theorem coefficient_monotonicity (cfg : CoefConfig) (r1 r2 : ℕ)
    (h12 : r1 ≤ r2) :
    (cfg.adjusttype = .linearly → cfg.adjustcoefficient ≤ 1 →
       getUpdateCoefficient cfg r1 ≤ getUpdateCoefficient cfg r2 ∧
       cfg.adjustcoefficient ≤ getUpdateCoefficient cfg r1 ∧
       getUpdateCoefficient cfg r1 ≤ 1) ∧
    (cfg.adjusttype = .staircase →
       getUpdateCoefficient cfg r1 ≤ getUpdateCoefficient cfg r2) ∧
    (cfg.adjusttype = .staircase → ∀ r : ℕ, r % cfg.adjustnbmb ≠ 0 →
       getUpdateCoefficient cfg r = getUpdateCoefficient cfg (r - 1)) := by
  obtain ⟨ty, c, nb⟩ := cfg
  refine ⟨?_, ?_, ?_⟩
  · rintro rfl hc
    have hslope : 0 ≤ (1 - c) / (nb : ℚ) :=
      div_nonneg (by linarith) (Nat.cast_nonneg nb)
    rw [getUpdateCoefficient_linearly, getUpdateCoefficient_linearly]
    refine ⟨clamp01_mono ?_, ?_, min_le_left 1 _⟩
    · have := mul_le_mul_of_nonneg_left
        (show (r1 : ℚ) ≤ (r2 : ℚ) from Nat.cast_le.mpr h12) hslope
      linarith
    · have hin : c ≤ c + (1 - c) / (nb : ℚ) * (r1 : ℚ) :=
        le_add_of_nonneg_right (mul_nonneg hslope (Nat.cast_nonneg r1))
      exact le_min hc (le_trans hin (le_max_right 0 _))
  · rintro rfl
    rw [getUpdateCoefficient_staircase, getUpdateCoefficient_staircase]
    rcases le_or_lt c 0 with hc | hc
    · have h1 : c * ((r1 / nb + 1 : ℕ) : ℚ) ≤ 0 :=
        mul_nonpos_iff.mpr (Or.inr ⟨hc, Nat.cast_nonneg _⟩)
      have h2 : c * ((r2 / nb + 1 : ℕ) : ℚ) ≤ 0 :=
        mul_nonpos_iff.mpr (Or.inr ⟨hc, Nat.cast_nonneg _⟩)
      rw [max_eq_left h1, max_eq_left h2]
    · refine clamp01_mono (mul_le_mul_of_nonneg_left ?_ (le_of_lt hc))
      exact_mod_cast Nat.succ_le_succ (Nat.div_le_div_right h12)
  · rintro rfl r hr
    have hrpos : r ≠ 0 := by
      intro h0; rw [h0] at hr; simp at hr
    obtain ⟨m, rfl⟩ : ∃ m, r = m + 1 :=
      ⟨r - 1, (Nat.succ_pred_eq_of_pos (Nat.pos_of_ne_zero hrpos)).symm⟩
    have hnd : ¬ nb ∣ m + 1 := fun hd => hr (Nat.mod_eq_zero_of_dvd hd)
    have hdiv : (m + 1) / nb = m / nb := by
      rw [Nat.succ_div, if_neg hnd, Nat.add_zero]
    simp only [Nat.add_sub_cancel]
    rw [getUpdateCoefficient_staircase, getUpdateCoefficient_staircase, hdiv]

/-- Witness for C7 at the Linearly configuration (1/2, rampRounds 2),
rounds 1 ≤ 3. -/
theorem coefficient_monotonicity_w :
    getUpdateCoefficient ⟨.linearly, 1/2, 2⟩ 1 ≤
      getUpdateCoefficient ⟨.linearly, 1/2, 2⟩ 3 :=
  ((coefficient_monotonicity ⟨.linearly, 1/2, 2⟩ 1 3 (by norm_num)).1
    rfl (by norm_num)).1

/-! Constructor validation (MultiversoWrapper constructor, lines 70-73). -/

/-- Constructor validation (lines 70-73): InvalidArgument is raised exactly
when momentumAdd * elasticAdd differs from zero. -/
def constructorRejects (momentumAdd elasticAdd : ℚ) : Bool :=
  momentumAdd * elasticAdd != 0

/-- C8: construction is rejected whenever both the momentum-add and the
elastic-add coefficients are nonzero (the check runs in the constructor,
before any synchronization round), and it is accepted whenever at least one
of the two is zero. -/
theorem elastic_delta_exclusivity (m e : ℚ) :
    (m ≠ 0 → e ≠ 0 → constructorRejects m e = true) ∧
    ((m = 0 ∨ e = 0) → constructorRejects m e = false) := by
  constructor
  · intro hm he
    simp [constructorRejects, bne_iff_ne, mul_eq_zero, hm, he]
  · rintro (rfl | rfl) <;> simp [constructorRejects]

/-- Witness for C8: momentumAdd = 3/10 with elasticAdd = 1/2 is rejected,
momentumAdd = 0 with elasticAdd = 1/2 is accepted. -/
theorem elastic_delta_exclusivity_w :
    constructorRejects (3/10) (1/2) = true ∧
    constructorRejects 0 (1/2) = false :=
  ⟨(elastic_delta_exclusivity (3/10) (1/2)).1 (by norm_num) (by norm_num),
   (elastic_delta_exclusivity 0 (1/2)).2 (Or.inl rfl)⟩

/-! Buffer machinery.  The flat parameter buffers (pPCache slots, pDelta,
pTempForLocal, pTempForServer) are lists of rationals of length
totalLength.  CopyToArray into a buffer offset becomes writeAt; SetValue
from a buffer offset becomes slice. -/

/-- Contiguous read of len elements starting at off of a buffer. -/
def slice (buf : List ℚ) (off len : ℕ) : List ℚ := (buf.drop off).take len

/-- Overwrite buf starting at off with the contents of src. -/
def writeAt (buf : List ℚ) (off : ℕ) (src : List ℚ) : List ℚ :=
  buf.take off ++ src ++ buf.drop (off + src.length)

/-- Total element count of a tensor list: the accumulate over
vTableLength in Init (line 424). -/
def sumLens (ts : List (List ℚ)) : ℕ := (ts.map List.length).sum

/-- The per-tensor gather loop: each tensor is copied into the buffer at
its running offset (the vTableIdx prefix sums of Init, lines 433-438). -/
def gatherFrom : List (List ℚ) → ℕ → List ℚ → List ℚ
  | [], _, buf => buf
  | t :: ts, off, buf => gatherFrom ts (off + t.length) (writeAt buf off t)

/-- Gather the whole model into a full-length buffer, starting at offset
zero. -/
def gather (ts : List (List ℚ)) (buf : List ℚ) : List ℚ := gatherFrom ts 0 buf

/-- The per-tensor scatter loop: tensor i is replaced by the slice of the
buffer at its running offset with the tensor's own length. -/
def scatterFrom : List (List ℚ) → ℕ → List ℚ → List (List ℚ)
  | [], _, _ => []
  | t :: ts, off, buf =>
      slice buf off t.length :: scatterFrom ts (off + t.length) buf

lemma writeAt_length (buf src : List ℚ) (off : ℕ)
    (h : off + src.length ≤ buf.length) :
    (writeAt buf off src).length = buf.length := by
  simp [writeAt]
  omega

lemma writeAt_take (buf src : List ℚ) (off : ℕ)
    (h : off + src.length ≤ buf.length) :
    (writeAt buf off src).take (off + src.length) = buf.take off ++ src := by
  unfold writeAt
  exact List.take_left' (by simp [List.length_take]; omega)

lemma writeAt_drop (buf src : List ℚ) (off k : ℕ)
    (h : off + src.length ≤ buf.length) :
    (writeAt buf off src).drop (off + src.length + k) =
      buf.drop (off + src.length + k) := by
  unfold writeAt
  have h1 : (buf.take off ++ src).length = off + src.length := by
    simp [List.length_take]; omega
  rw [show off + src.length + k = (buf.take off ++ src).length + k by rw [h1],
    List.drop_append, List.drop_drop, h1]

/-- Effect of the gather loop: the buffer region [off, off + sumLens ts)
is replaced with the concatenation of the tensors, the rest is kept. -/
lemma gatherFrom_eq : ∀ (ts : List (List ℚ)) (off : ℕ) (buf : List ℚ),
    off + sumLens ts ≤ buf.length →
    gatherFrom ts off buf =
      buf.take off ++ ts.flatten ++ buf.drop (off + sumLens ts)
  | [], off, buf, _ => by
      simp [gatherFrom, sumLens, List.take_append_drop]
  | t :: ts, off, buf, h => by
      have hs : sumLens (t :: ts) = t.length + sumLens ts := by
        simp [sumLens]
      have hb : off + t.length ≤ buf.length := by
        rw [hs] at h; omega
      have hlen := writeAt_length buf t off hb
      have ih := gatherFrom_eq ts (off + t.length) (writeAt buf off t)
        (by rw [hlen]; rw [hs] at h; omega)
      rw [gatherFrom, ih, writeAt_take buf t off hb,
        writeAt_drop buf t off (sumLens ts) hb, hs]
      simp [List.append_assoc, Nat.add_assoc]

/-- Gathering into a buffer of exactly the total length yields the
concatenated model. -/
lemma gather_eq_join (ts : List (List ℚ)) (buf : List ℚ)
    (h : buf.length = sumLens ts) : gather ts buf = ts.flatten := by
  unfold gather
  rw [gatherFrom_eq ts 0 buf (by omega)]
  simp [← h]

/-- Scattering from a buffer whose region at off holds the concatenation
of ts recovers ts, for any shape list with the same tensor lengths. -/
lemma scatterFrom_of_drop : ∀ (shapes ts : List (List ℚ)) (off : ℕ)
    (buf rest : List ℚ),
    shapes.map List.length = ts.map List.length →
    buf.drop off = ts.flatten ++ rest →
    scatterFrom shapes off buf = ts
  | [], [], _, _, _, _, _ => rfl
  | [], _ :: _, _, _, _, hm, _ => by simp at hm
  | _ :: _, [], _, _, _, hm, _ => by simp at hm
  | s :: shapes, t :: ts, off, buf, rest, hm, hd => by
      simp only [List.map_cons, List.cons.injEq] at hm
      obtain ⟨hst, hm'⟩ := hm
      have hd' : buf.drop off = t ++ (ts.flatten ++ rest) := by
        rw [hd]; simp [List.append_assoc]
      have htake : slice buf off s.length = t := by
        unfold slice
        rw [hd', hst]
        exact List.take_left' rfl
      have hdrop : buf.drop (off + s.length) = ts.flatten ++ rest := by
        rw [← List.drop_drop, hd', hst]
        exact List.drop_left' rfl
      rw [scatterFrom, htake,
        scatterFrom_of_drop shapes ts (off + s.length) buf rest hm' hdrop]

/-- Scattering the concatenated model recovers the model. -/
lemma scatterFrom_join (shapes ts : List (List ℚ))
    (hm : shapes.map List.length = ts.map List.length) :
    scatterFrom shapes 0 ts.flatten = ts :=
  scatterFrom_of_drop shapes ts 0 ts.flatten [] hm (by simp)

/-- Scattering from a long enough buffer preserves the tensor lengths. -/
lemma scatterFrom_lengths : ∀ (shapes : List (List ℚ)) (off : ℕ)
    (buf : List ℚ),
    off + sumLens shapes ≤ buf.length →
    (scatterFrom shapes off buf).map List.length = shapes.map List.length
  | [], _, _, _ => rfl
  | s :: shapes, off, buf, h => by
      have hs : sumLens (s :: shapes) = s.length + sumLens shapes := by
        simp [sumLens]
      rw [hs] at h
      have h1 : (slice buf off s.length).length = s.length := by
        simp [slice]
        omega
      rw [scatterFrom, List.map_cons, List.map_cons, h1,
        scatterFrom_lengths shapes (off + s.length) buf (by omega)]

/-! Checkpoint transfer: ModelLoadServer (lines 359-384) and ModelLoadBack
(lines 386-398).  The snapshot returned by the BatchLoad is an oracle
argument. -/

/-- The two dedicated temp buffers pTempForLocal and pTempForServer. -/
structure LoadState where
  tempForLocal : List ℚ
  tempForServer : List ℚ

/-- ModelLoadServer: save the local model into tempForLocal, BatchLoad
the server snapshot into tempForServer, then write that snapshot into the
model tensors.  Returns the new buffers and the new tensor list. -/
def ModelLoadServer (ts : List (List ℚ)) (st : LoadState)
    (serverSnap : List ℚ) : LoadState × List (List ℚ) :=
  let tl := gather ts st.tempForLocal
  let tsv := serverSnap
  (⟨tl, tsv⟩, scatterFrom ts 0 tsv)

/-- ModelLoadBack: write the saved tempForLocal buffer back into the model
tensors. -/
def ModelLoadBack (ts : List (List ℚ)) (st : LoadState) : List (List ℚ) :=
  scatterFrom ts 0 st.tempForLocal

/-- C10: ModelLoadServer followed immediately by ModelLoadBack restores
every tensor to the exact values it held before ModelLoadServer: the local
model is saved into the dedicated tempForLocal buffer before the tensors
are overwritten with the BatchLoaded server snapshot, and ModelLoadBack
writes the saved buffer back unchanged. -/
theorem load_roundtrip (ts : List (List ℚ)) (st : LoadState)
    (serverSnap : List ℚ)
    (hl : st.tempForLocal.length = sumLens ts)
    (hs : serverSnap.length = sumLens ts) :
    ModelLoadBack (ModelLoadServer ts st serverSnap).2
      (ModelLoadServer ts st serverSnap).1 = ts ∧
    (ModelLoadServer ts st serverSnap).1.tempForLocal = ts.flatten ∧
    (ModelLoadServer ts st serverSnap).2 = scatterFrom ts 0 serverSnap := by
  have hjoin : gather ts st.tempForLocal = ts.flatten := gather_eq_join ts _ hl
  have hshapes : (scatterFrom ts 0 serverSnap).map List.length =
      ts.map List.length :=
    scatterFrom_lengths ts 0 serverSnap (by omega)
  refine ⟨?_, hjoin, rfl⟩
  show scatterFrom (scatterFrom ts 0 serverSnap) 0
    (gather ts st.tempForLocal) = ts
  rw [hjoin]
  exact scatterFrom_join _ ts hshapes

/-- Witness for C10 on a two-tensor model of sizes 2 and 1. -/
theorem load_roundtrip_w :
    ModelLoadBack (ModelLoadServer [[(1:ℚ), 2], [3]] ⟨[0,0,0], [0,0,0]⟩
        [7,8,9]).2
      (ModelLoadServer [[(1:ℚ), 2], [3]] ⟨[0,0,0], [0,0,0]⟩ [7,8,9]).1 =
      [[(1:ℚ), 2], [3]] :=
  (load_roundtrip [[(1:ℚ), 2], [3]] ⟨[0,0,0], [0,0,0]⟩ [7,8,9]
    (by decide) (by decide)).1

/-- Concatenating the partition slices of a full-length buffer, in row
order, recovers the buffer up to the running offset. -/
lemma flatten_slices_aux (buf : List ℚ) (total n : ℕ) :
    ∀ m, ((List.range m).map fun r =>
        slice buf (idxEachServer total n r) (sizeEachServer total n r)).flatten
      = buf.take (idxEachServer total n m)
  | 0 => by simp [idxEachServer]
  | m + 1 => by
      rw [List.range_succ, List.map_append, List.flatten_append,
        flatten_slices_aux buf total n m]
      simp [slice, idxEachServer, List.take_add]

/-- Concatenating all partition slices of a full-length buffer recovers
the buffer: the partitions cover [0, totalLength) exactly. -/
lemma flatten_slices (buf : List ℚ) (total n : ℕ)
    (hbuf : buf.length = total) (hn : 0 < n) :
    ((List.range n).map fun r =>
        slice buf (idxEachServer total n r) (sizeEachServer total n r)).flatten
      = buf := by
  rw [flatten_slices_aux buf total n n, idxEachServer_total total n hn,
    ← hbuf, List.take_length]

/-! Parameter Table Client operations, recorded as a trace in program
order.  The merged values each BatchLoad returns come from oracle
arguments of the embedded functions. -/

/-- One operation issued to the multiverso adaptor. -/
inductive ServerOp
  | add (row : ℕ) (payload : List ℚ) (weight : ℚ)
  | batchLoad
  | barrier
deriving DecidableEq

/-- Construction-time configuration used by the synchronization rounds. -/
structure SyncConfig where
  nClients : ℕ
  elasticAdd : ℚ
  coef : CoefConfig
deriving DecidableEq

/-- The Add loop: one Add per partition row carrying the slice of the
given buffer at that row's (offset, size), with the given weight. -/
def addOps (buf : List ℚ) (total n : ℕ) (w : ℚ) : List ServerOp :=
  (List.range n).map fun r =>
    ServerOp.add r
      (slice buf (idxEachServer total n r) (sizeEachServer total n r)) w

/-- Elementwise difference of two buffers: the std::minus transform. -/
def bufSub (xs ys : List ℚ) : List ℚ := List.zipWith (fun a b => a - b) xs ys

lemma bufSub_length (xs ys : List ℚ) :
    (bufSub xs ys).length = min xs.length ys.length := by
  simp [bufSub]

/-- Subtracting a difference from its minuend recovers the subtrahend. -/
lemma bufSub_bufSub (xs ys : List ℚ) (h : xs.length = ys.length) :
    bufSub xs (bufSub xs ys) = ys := by
  induction xs generalizing ys with
  | nil =>
      cases ys with
      | nil => rfl
      | cons y ys => simp at h
  | cons x xs ih =>
      cases ys with
      | nil => simp at h
      | cons y ys =>
          simp only [List.length_cons, Nat.add_right_cancel_iff] at h
          simp only [bufSub, List.zipWith_cons_cons, List.cons.injEq]
          exact ⟨by ring, ih ys h⟩

/-- Payloads of the Add loop concatenate to the whole pushed buffer. -/
lemma addOps_flatten (buf : List ℚ) (total n : ℕ) (w : ℚ)
    (hbuf : buf.length = total) (hn : 0 < n) :
    ((addOps buf total n w).map fun op =>
        match op with
        | ServerOp.add _ payload _ => payload
        | _ => []).flatten = buf := by
  unfold addOps
  rw [List.map_map]
  exact flatten_slices buf total n hbuf hn

/-! Non-pipelined ModelSync (ModelSync, lines 172-357; the branch taken
when isPipeline is false starts at line 310). -/

/-- Mutable state of the non-pipelined wrapper: the single cache slot
pPCache[0], the delta buffer pDelta, and the round counter commCnt. -/
structure NPState where
  cache0 : List ℚ
  delta : List ℚ
  commCnt : ℕ
deriving DecidableEq

/-- Non-pipelined ModelSync.  The round counter is incremented first
(line 175); the model is gathered into pDelta (lines 313-320).  With
elasticAdd ≤ 0 the delta-accumulation branch (lines 321-329) computes
pDelta := pDelta - pPCache[0], issues one Add per partition weighted by
getUpdateCoefficient, and BatchLoads the merged snapshot (the oracle
argument merged) into pPCache[0]; otherwise the elastic branch
(lines 330-339) BatchLoads into pPCache[0] first, computes
pPCache[0] := pDelta - pPCache[0], issues one Add per partition weighted
by elasticAdd, and then computes pDelta := pDelta - pPCache[0].  Finally
the result buffer (pPCache[0], or pDelta for elastic) is written back
into the model tensors (lines 341-355).  Returns the new state, the op
trace in program order, and the new model. -/
def ModelSyncNP (cfg : SyncConfig) (ts : List (List ℚ)) (st : NPState)
    (merged : List ℚ) : NPState × List ServerOp × List (List ℚ) :=
  let cnt := st.commCnt + 1
  let total := sumLens ts
  let factor := getUpdateCoefficient cfg.coef cnt
  let delta1 := gather ts st.delta
  if cfg.elasticAdd ≤ 0 then
    let delta2 := bufSub delta1 st.cache0
    let ops := addOps delta2 total cfg.nClients factor ++ [ServerOp.batchLoad]
    let cache0' := merged
    (⟨cache0', delta2, cnt⟩, ops, scatterFrom ts 0 cache0')
  else
    let cache0a := merged
    let cache0b := bufSub delta1 cache0a
    let ops := ServerOp.batchLoad ::
      addOps cache0b total cfg.nClients cfg.elasticAdd
    let delta2 := bufSub delta1 cache0b
    (⟨cache0b, delta2, cnt⟩, ops, scatterFrom ts 0 delta2)

/-- Counterexample for C2: with three workers and no ramp configured, the
weight passed to every Add of a delta-accumulation round is the
Coefficient Policy value 1, not 1/workerCount = 1/3. -/
theorem asgd_round_cex :
    (ModelSyncNP ⟨3, 0, ⟨.none, 1/5, 600⟩⟩ [[1], [2], [3]]
        ⟨[0, 0, 0], [0, 0, 0], 0⟩ [0, 0, 0]).2.1.head? =
      some (ServerOp.add 0 [1] 1) ∧ (1 : ℚ) ≠ 1 / 3 := by
  constructor
  · norm_num [ModelSyncNP, gather, gatherFrom, writeAt, bufSub, addOps, slice, idxEachServer, sizeEachServer, sumLens, getUpdateCoefficient, scatterFrom, List.range_succ]
  · norm_num

/-- C2 (amended): in every non-pipelined delta-accumulation round the op
trace is exactly one Add per partition, row r carrying the partition-r
slice of localSnapshot - lastMergedSnapshot (the payloads concatenate to
the full-length difference), each weighted by the Coefficient Policy
factor of the current round — which is 1, not 1/workerCount, when no ramp
is configured — followed by the BatchLoad; the BatchLoaded merged
snapshot is stored in the single active slot, written back to the model,
and serves as the baseline subtracted in the next round's push. -/
theorem asgd_round (cfg : SyncConfig) (ts ts2 : List (List ℚ))
    (st : NPState) (merged merged2 : List ℚ)
    (hE : cfg.elasticAdd ≤ 0)
    (hd : st.delta.length = sumLens ts)
    (hc : st.cache0.length = sumLens ts)
    (hm : merged.length = sumLens ts)
    (ht2 : sumLens ts2 = sumLens ts)
    (hn : 0 < cfg.nClients) :
    (ModelSyncNP cfg ts st merged).2.1 =
      addOps (bufSub ts.flatten st.cache0) (sumLens ts) cfg.nClients
        (getUpdateCoefficient cfg.coef (st.commCnt + 1)) ++
        [ServerOp.batchLoad] ∧
    (((ModelSyncNP cfg ts st merged).2.1.map fun op =>
        match op with
        | ServerOp.add _ payload _ => payload
        | _ => []).flatten = bufSub ts.flatten st.cache0) ∧
    (cfg.coef.adjusttype = .none →
      getUpdateCoefficient cfg.coef (st.commCnt + 1) = 1) ∧
    (ModelSyncNP cfg ts st merged).1.cache0 = merged ∧
    (ModelSyncNP cfg ts st merged).2.2 = scatterFrom ts 0 merged ∧
    (ModelSyncNP cfg ts2 (ModelSyncNP cfg ts st merged).1 merged2).2.1 =
      addOps (bufSub ts2.flatten merged) (sumLens ts2) cfg.nClients
        (getUpdateCoefficient cfg.coef (st.commCnt + 2)) ++
        [ServerOp.batchLoad] := by
  have hg : gather ts st.delta = ts.flatten := gather_eq_join ts _ hd
  have hflat : ts.flatten.length = sumLens ts := by
    simp [sumLens]
  have hD : (bufSub ts.flatten st.cache0).length = sumLens ts := by
    rw [bufSub_length, hflat, hc]; omega
  constructor
  · simp only [ModelSyncNP, if_pos hE, hg]
  constructor
  · simp only [ModelSyncNP, if_pos hE, hg, List.map_append]
    rw [List.flatten_append]
    have h2 : (([ServerOp.batchLoad].map fun op =>
        match op with
        | ServerOp.add _ payload _ => payload
        | _ => ([] : List ℚ)).flatten) = [] := by simp
    rw [h2, List.append_nil]
    exact addOps_flatten _ _ _ _ hD hn
  constructor
  · intro hty
    simp only [getUpdateCoefficient, hty]
  constructor
  · simp only [ModelSyncNP, if_pos hE, hg]
  constructor
  · simp only [ModelSyncNP, if_pos hE, hg]
  · have hstate : (ModelSyncNP cfg ts st merged).1 =
        ⟨merged, bufSub ts.flatten st.cache0, st.commCnt + 1⟩ := by
      simp only [ModelSyncNP, if_pos hE, hg]
    rw [hstate]
    have hg2 : gather ts2 (bufSub ts.flatten st.cache0) = ts2.flatten :=
      gather_eq_join ts2 _ (by rw [bufSub_length, hflat, hc, ht2]; omega)
    simp only [ModelSyncNP, if_pos hE, hg2]

/-- Witness for C2 with a single worker, no ramp, one tensor of size 1. -/
theorem asgd_round_w :
    (ModelSyncNP ⟨1, 0, ⟨.none, 1/5, 600⟩⟩ [[2]] ⟨[0], [0], 0⟩ [7]).1.cache0 =
      [7] :=
  (asgd_round ⟨1, 0, ⟨.none, 1/5, 600⟩⟩ [[2]] [[4]] ⟨[0], [0], 0⟩ [7] [9]
    (by norm_num) (by decide) (by decide) (by decide) (by decide)
    (by decide)).2.2.2.1

/-- Counterexample for C3: in an elastic round with localSnapshot [1] and
merged snapshot [3], after the push the delta buffer holds the merged
snapshot [3], not localSnapshot - mergedSnapshot = [-2]. -/
theorem elastic_round_cex :
    (ModelSyncNP ⟨1, 1, ⟨.none, 1/5, 600⟩⟩ [[1]] ⟨[0], [0], 0⟩ [3]).1.delta =
      [3] ∧
    ((ModelSyncNP ⟨1, 1, ⟨.none, 1/5, 600⟩⟩ [[1]] ⟨[0], [0], 0⟩
        [3]).1.delta ≠ bufSub [1] [3]) := by
  constructor
  · norm_num [ModelSyncNP, gather, gatherFrom, writeAt, bufSub, addOps, slice, idxEachServer, sizeEachServer, sumLens, getUpdateCoefficient, scatterFrom, List.range_succ]
  · norm_num [ModelSyncNP, gather, gatherFrom, writeAt, bufSub, addOps, slice, idxEachServer, sizeEachServer, sumLens, getUpdateCoefficient, scatterFrom, List.range_succ]

/-- C3 (amended): in every non-pipelined elastic-averaging round the op
trace starts with the BatchLoad (pull before push, opposite order from
ASGD) followed by one Add per partition carrying the partition slice of
diff = localSnapshot - mergedSnapshot weighted by elasticAdd rather than
the Coefficient Policy ramp factor; after the push the delta buffer holds
localSnapshot - diff, which equals the merged snapshot (not
localSnapshot - mergedSnapshot), and that buffer is what is written back
into the model. -/
theorem elastic_round (cfg : SyncConfig) (ts : List (List ℚ))
    (st : NPState) (merged : List ℚ)
    (hE : 0 < cfg.elasticAdd)
    (hd : st.delta.length = sumLens ts)
    (hm : merged.length = sumLens ts)
    (hn : 0 < cfg.nClients) :
    (ModelSyncNP cfg ts st merged).2.1 =
      ServerOp.batchLoad ::
        addOps (bufSub ts.flatten merged) (sumLens ts) cfg.nClients
          cfg.elasticAdd ∧
    ((((ModelSyncNP cfg ts st merged).2.1.drop 1).map fun op =>
        match op with
        | ServerOp.add _ payload _ => payload
        | _ => []).flatten = bufSub ts.flatten merged) ∧
    (ModelSyncNP cfg ts st merged).1.cache0 = bufSub ts.flatten merged ∧
    (ModelSyncNP cfg ts st merged).1.delta = merged ∧
    (ModelSyncNP cfg ts st merged).2.2 = scatterFrom ts 0 merged := by
  have hE' : ¬ cfg.elasticAdd ≤ 0 := not_le.mpr hE
  have hg : gather ts st.delta = ts.flatten := gather_eq_join ts _ hd
  have hflat : ts.flatten.length = sumLens ts := by
    simp [sumLens]
  have hD : (bufSub ts.flatten merged).length = sumLens ts := by
    rw [bufSub_length, hflat, hm]; omega
  have hback : bufSub ts.flatten (bufSub ts.flatten merged) = merged :=
    bufSub_bufSub ts.flatten merged (by rw [hflat, hm])
  refine ⟨?_, ?_, ?_, ?_, ?_⟩
  · simp only [ModelSyncNP, if_neg hE', hg]
  · simp only [ModelSyncNP, if_neg hE', hg, List.drop_succ_cons,
      List.drop_zero]
    exact addOps_flatten _ _ _ _ hD hn
  · simp only [ModelSyncNP, if_neg hE', hg]
  · simp only [ModelSyncNP, if_neg hE', hg, hback]
  · simp only [ModelSyncNP, if_neg hE', hg, hback]

/-- Witness for C3 with a single worker, elasticAdd 1/2, one tensor. -/
theorem elastic_round_w :
    (ModelSyncNP ⟨1, 1/2, ⟨.none, 1/5, 600⟩⟩ [[4]] ⟨[0], [0], 0⟩
        [6]).1.delta = [6] :=
  (elastic_round ⟨1, 1/2, ⟨.none, 1/5, 600⟩⟩ [[4]] ⟨[0], [0], 0⟩ [6]
    (by norm_num) (by decide) (by decide) (by decide)).2.2.2.1

/-! ModelInit (lines 134-166). -/

/-- State of the local cache slots and the delta buffer. -/
structure InitState where
  caches : List (List ℚ)
  delta : List ℚ

/-- ModelInit: gather the model into slot 0 (lines 142-153), mirror
slot 0 into every other slot (lines 155-156), copy it into the delta
buffer (line 158), Add a 1/nClients-weighted copy of the delta buffer to
every partition row (lines 160-161), Barrier (line 162), BatchLoad the
merged result into the delta buffer (line 163), then overwrite the delta
buffer with slot 0 again (line 165).  nCache is the number of local
cache slots. -/
def ModelInit (cfg : SyncConfig) (nCache : ℕ) (ts : List (List ℚ))
    (st : InitState) (merged : List ℚ) : InitState × List ServerOp :=
  let total := sumLens ts
  let factor : ℚ := 1 / (cfg.nClients : ℚ)
  let c0 := gather ts (st.caches.headD [])
  let caches1 := List.replicate nCache c0
  let delta1 := c0
  let ops := addOps delta1 total cfg.nClients factor ++
    [ServerOp.barrier, ServerOp.batchLoad]
  let deltaLoaded := merged
  let deltaFinal := c0
  (⟨caches1, deltaFinal⟩, ops)

/-- Counterexample for C4: with local model [1] and BatchLoaded merged
result [5], after ModelInit slot 0 holds the local model [1], not the
pulled merged snapshot [5] — the BatchLoad result is discarded by the
final overwrite of the delta buffer and never reaches any slot. -/
theorem model_init_cex :
    (ModelInit ⟨1, 0, ⟨.none, 1/5, 600⟩⟩ 1 [[1]] ⟨[[0]], [0]⟩
        [5]).1.caches.headD [] = [1] ∧
    ((ModelInit ⟨1, 0, ⟨.none, 1/5, 600⟩⟩ 1 [[1]] ⟨[[0]], [0]⟩
        [5]).1.caches.headD [] ≠ [5]) := by
  constructor
  · norm_num [ModelSyncNP, ModelInit, gather, gatherFrom, writeAt, bufSub, addOps, slice, idxEachServer, sizeEachServer, sumLens, getUpdateCoefficient, scatterFrom, List.range_succ]
  · norm_num [ModelSyncNP, ModelInit, gather, gatherFrom, writeAt, bufSub, addOps, slice, idxEachServer, sizeEachServer, sumLens, getUpdateCoefficient, scatterFrom, List.range_succ]

/-- C4 (amended): ModelInit issues one Add per partition pushing the
1/workerCount-weighted copy of the initial local model (the payloads
concatenate to the full local model), then a Barrier, then a BatchLoad
pulling the merged result; but the pulled merged result is discarded (the
delta buffer is overwritten with slot 0 afterwards), so every cache slot
and the delta buffer end up holding the initial local model — which is
all zeros whenever the local weights are all zeros, as in the
workerCount = 3 all-zero instance of the witness. -/
theorem model_init_round (cfg : SyncConfig) (nCache : ℕ)
    (ts : List (List ℚ)) (st : InitState) (merged : List ℚ)
    (h0 : (st.caches.headD []).length = sumLens ts)
    (hn : 0 < cfg.nClients) :
    (ModelInit cfg nCache ts st merged).2 =
      addOps ts.flatten (sumLens ts) cfg.nClients (1 / (cfg.nClients : ℚ)) ++
        [ServerOp.barrier, ServerOp.batchLoad] ∧
    (((ModelInit cfg nCache ts st merged).2.map fun op =>
        match op with
        | ServerOp.add _ payload _ => payload
        | _ => []).flatten = ts.flatten) ∧
    (ModelInit cfg nCache ts st merged).1.caches =
      List.replicate nCache ts.flatten ∧
    (ModelInit cfg nCache ts st merged).1.delta = ts.flatten := by
  have hg : gather ts (st.caches.headD []) = ts.flatten :=
    gather_eq_join ts _ h0
  have hflat : ts.flatten.length = sumLens ts := by
    simp [sumLens]
  refine ⟨?_, ?_, ?_, ?_⟩
  · simp only [ModelInit, hg]
  · simp only [ModelInit, hg, List.map_append]
    rw [List.flatten_append]
    have h2 : (([ServerOp.barrier, ServerOp.batchLoad].map fun op =>
        match op with
        | ServerOp.add _ payload _ => payload
        | _ => ([] : List ℚ)).flatten) = [] := by simp
    rw [h2, List.append_nil]
    exact addOps_flatten _ _ _ _ hflat hn
  · simp only [ModelInit, hg]
  · simp only [ModelInit, hg]

/-- Witness for C4: three workers, two cache slots, all-zero local model
of total length 3; every slot ends up all zeros. -/
theorem model_init_round_w :
    (ModelInit ⟨3, 0, ⟨.none, 1/5, 600⟩⟩ 2 [[0, 0], [0]]
        ⟨[[0, 0, 0], [0, 0, 0]], [0, 0, 0]⟩ [0, 0, 0]).1.caches =
      List.replicate 2 [(0 : ℚ), 0, 0] :=
  (model_init_round ⟨3, 0, ⟨.none, 1/5, 600⟩⟩ 2 [[0, 0], [0]]
    ⟨[[0, 0, 0], [0, 0, 0]], [0, 0, 0]⟩ [0, 0, 0]
    (by decide) (by decide)).2.2.1

/-! Pipelined ModelSync (lines 172-309; the CPU path of the branch taken
when isPipeline is true).  The background thread body (lines 285-307) is
applied at the join point at the start of the following round, which is
where its effects become visible to the main thread; the merged snapshot
its BatchLoad returns for round r is oracle r. -/

/-- Slot successor table pCacheState: with two local cache slots, slot i
maps to (i + 1) % 2 (constructor, lines 95-97). -/
def pCacheState (i : ℕ) : ℕ := (i + 1) % 2

/-- Mutable state of the pipelined wrapper: the active slot index
nCacheIdx, the cache slots pPCache, the delta buffer pDelta, the round
counter commCnt, and the spawned but not yet joined background task,
recorded as (its captured t_cacheIdx, its round number). -/
structure PipeState where
  cacheIdx : ℕ
  caches : List (List ℚ)
  delta : List ℚ
  commCnt : ℕ
  pending : Option (ℕ × ℕ)

/-- Background thread body (lines 285-307): with elasticAdd ≤ 0 it
computes pDelta := pDelta - pPCache[t], issues the Adds, and BatchLoads
the merged snapshot into pPCache[t]; otherwise it BatchLoads into
pPCache[t], computes pPCache[t] := pDelta - pPCache[t], issues the Adds
weighted by elasticAdd, and finally computes
pDelta := pDelta - pPCache[t].  Only the buffer effects are modelled
here; the issued server calls do not change local state. -/
def taskBody (cfg : SyncConfig) (oracle : ℕ → List ℚ) (t r : ℕ)
    (caches : List (List ℚ)) (delta : List ℚ) :
    List (List ℚ) × List ℚ :=
  if cfg.elasticAdd ≤ 0 then
    (caches.set t (oracle r), bufSub delta (caches.getD t []))
  else
    let c2 := bufSub delta (oracle r)
    (caches.set t c2, bufSub delta c2)

/-- Join of the outstanding background task (lines 179-180): apply its
buffer effects if one is pending, otherwise keep the buffers. -/
def joinPending (cfg : SyncConfig) (oracle : ℕ → List ℚ)
    (st : PipeState) : List (List ℚ) × List ℚ :=
  match st.pending with
  | some (t, r) => taskBody cfg oracle t r st.caches st.delta
  | _ => (st.caches, st.delta)

/-- Pipelined ModelSync: increment the round counter (line 175), join
the outstanding background task if any (lines 179-180), rotate the
active slot (line 182), gather the model into the new active slot
(lines 205-207), write back into the model from the partner slot for
delta-accumulation or from the delta buffer for elastic (lines 209-216),
and spawn this round's background task (lines 285-307).  Returns the new
state and the flattened buffer written back into the model tensors. -/
def ModelSyncPipe (cfg : SyncConfig) (oracle : ℕ → List ℚ)
    (ts : List (List ℚ)) (st : PipeState) : PipeState × List ℚ :=
  let cnt := st.commCnt + 1
  let joined := joinPending cfg oracle st
  let idx := pCacheState st.cacheIdx
  let caches2 := joined.1.set idx (gather ts (joined.1.getD idx []))
  let writeBack := if cfg.elasticAdd ≤ 0 then
      caches2.getD (pCacheState idx) []
    else joined.2
  (⟨idx, caches2, joined.2, cnt, some (idx, cnt)⟩, writeBack)

/-- State right after construction and ModelInit in the pipelined setup:
active index 0, both cache slots and the delta buffer holding the
gathered initial model L0, no outstanding task, round counter 0. -/
def initPipeState (L0 : List ℚ) : PipeState :=
  ⟨0, [L0, L0], L0, 0, Option.none⟩

/-- Run pipelined rounds from the post-ModelInit state; round k reads
model snapshot locals k, and the BatchLoad of round k's background task
returns oracle k. -/
def runPipe (cfg : SyncConfig) (oracle : ℕ → List ℚ)
    (locals : ℕ → List (List ℚ)) (L0 : List ℚ) : ℕ → PipeState
  | 0 => initPipeState L0
  | k + 1 => (ModelSyncPipe cfg oracle (locals (k + 1))
      (runPipe cfg oracle locals L0 k)).1

/-- The flattened buffer written back into the model by round k + 1. -/
def writeBackAt (cfg : SyncConfig) (oracle : ℕ → List ℚ)
    (locals : ℕ → List (List ℚ)) (L0 : List ℚ) (k : ℕ) : List ℚ :=
  (ModelSyncPipe cfg oracle (locals (k + 1))
    (runPipe cfg oracle locals L0 k)).2

lemma pCacheState_mod (k : ℕ) : pCacheState ((k + 1) % 2) = (k + 2) % 2 := by
  unfold pCacheState
  omega

/-- Invariant of the pipelined delta-accumulation run: after round k + 1
the active index is (k + 1) % 2, the round counter is k + 1, round
k + 1's task is pending on the active slot, there are two slots, and the
partner slot holds the initial snapshot after round 1 and the previous
round's BatchLoaded merged snapshot afterwards. -/
lemma runPipe_inv (cfg : SyncConfig) (oracle : ℕ → List ℚ)
    (locals : ℕ → List (List ℚ)) (L0 : List ℚ) (hE : cfg.elasticAdd ≤ 0) :
    ∀ k,
      (runPipe cfg oracle locals L0 (k + 1)).cacheIdx = (k + 1) % 2 ∧
      (runPipe cfg oracle locals L0 (k + 1)).commCnt = k + 1 ∧
      (runPipe cfg oracle locals L0 (k + 1)).pending =
        some ((k + 1) % 2, k + 1) ∧
      (runPipe cfg oracle locals L0 (k + 1)).caches.length = 2 ∧
      (runPipe cfg oracle locals L0 (k + 1)).caches.getD ((k + 2) % 2) [] =
        (if k = 0 then L0 else oracle k) := by
  intro k
  induction k with
  | zero =>
      simp only [runPipe, ModelSyncPipe, initPipeState, joinPending,
        pCacheState, if_pos hE]
      norm_num [List.getD]
  | succ k ih =>
      obtain ⟨hidx, hcnt, hpend, hlen, hpart⟩ := ih
      have hstep : runPipe cfg oracle locals L0 (k + 1 + 1) =
          (ModelSyncPipe cfg oracle (locals (k + 1 + 1))
            (runPipe cfg oracle locals L0 (k + 1))).1 := rfl
      have hjoined : joinPending cfg oracle
            (runPipe cfg oracle locals L0 (k + 1)) =
          ((runPipe cfg oracle locals L0 (k + 1)).caches.set ((k + 1) % 2)
             (oracle (k + 1)),
           bufSub (runPipe cfg oracle locals L0 (k + 1)).delta
             ((runPipe cfg oracle locals L0 (k + 1)).caches.getD
               ((k + 1) % 2) [])) := by
        rw [joinPending, hpend]
        simp [taskBody, if_pos hE]
      have p1 : (ModelSyncPipe cfg oracle (locals (k + 1 + 1))
            (runPipe cfg oracle locals L0 (k + 1))).1.cacheIdx =
          pCacheState (runPipe cfg oracle locals L0 (k + 1)).cacheIdx := rfl
      have p2 : (ModelSyncPipe cfg oracle (locals (k + 1 + 1))
            (runPipe cfg oracle locals L0 (k + 1))).1.commCnt =
          (runPipe cfg oracle locals L0 (k + 1)).commCnt + 1 := rfl
      have p3 : (ModelSyncPipe cfg oracle (locals (k + 1 + 1))
            (runPipe cfg oracle locals L0 (k + 1))).1.pending =
          some (pCacheState (runPipe cfg oracle locals L0 (k + 1)).cacheIdx,
            (runPipe cfg oracle locals L0 (k + 1)).commCnt + 1) := rfl
      have p4 : (ModelSyncPipe cfg oracle (locals (k + 1 + 1))
            (runPipe cfg oracle locals L0 (k + 1))).1.caches =
          (joinPending cfg oracle (runPipe cfg oracle locals L0 (k + 1))).1.set
            (pCacheState (runPipe cfg oracle locals L0 (k + 1)).cacheIdx)
            (gather (locals (k + 1 + 1))
              ((joinPending cfg oracle
                  (runPipe cfg oracle locals L0 (k + 1))).1.getD
                (pCacheState (runPipe cfg oracle locals L0 (k + 1)).cacheIdx)
                [])) := rfl
      have hne1 : (k + 2) % 2 ≠ (k + 1) % 2 := by omega
      refine ⟨?_, ?_, ?_, ?_, ?_⟩
      · rw [hstep, p1, hidx, pCacheState_mod]
      · rw [hstep, p2, hcnt]
      · rw [hstep, p3, hidx, hcnt, pCacheState_mod]
      · rw [hstep, p4, hjoined]
        simp only [List.length_set]
        exact hlen
      · rw [hstep, p4, hjoined, hidx, pCacheState_mod]
        have h3 : (k + 1 + 2) % 2 = (k + 1) % 2 := by omega
        rw [h3, List.getD_eq_getElem?_getD,
          List.getElem?_set_ne hne1,
          List.getElem?_set_self (by rw [hlen]; omega),
          Option.getD_some]
        simp

/-- C9 (amended): in pipelined mode under the delta-accumulation
strategy, the buffer ModelSync writes back into the model tensors is the
partner cache slot (index (current + 1) mod 2) of the post-round state;
round 1 writes back the initial mirrored snapshot, and every round k ≥ 2
writes back the merged snapshot that round k - 1's background transfer
BatchLoaded — one round of staleness.  (Under the elastic strategy the
write-back comes from the delta buffer instead, see the
counterexample.) -/
theorem pipelined_writeback (cfg : SyncConfig) (oracle : ℕ → List ℚ)
    (locals : ℕ → List (List ℚ)) (L0 : List ℚ)
    (hE : cfg.elasticAdd ≤ 0) :
    writeBackAt cfg oracle locals L0 0 = L0 ∧
    (∀ k, writeBackAt cfg oracle locals L0 (k + 1) = oracle (k + 1)) ∧
    (∀ k, writeBackAt cfg oracle locals L0 k =
      (runPipe cfg oracle locals L0 (k + 1)).caches.getD
        (pCacheState ((runPipe cfg oracle locals L0 (k + 1)).cacheIdx))
        []) := by
  have h3 : ∀ k, writeBackAt cfg oracle locals L0 k =
      (runPipe cfg oracle locals L0 (k + 1)).caches.getD
        (pCacheState ((runPipe cfg oracle locals L0 (k + 1)).cacheIdx))
        [] := by
    intro k
    have hstep : runPipe cfg oracle locals L0 (k + 1) =
        (ModelSyncPipe cfg oracle (locals (k + 1))
          (runPipe cfg oracle locals L0 k)).1 := rfl
    rw [hstep]
    simp only [writeBackAt, ModelSyncPipe, if_pos hE]
  refine ⟨?_, fun k => ?_, h3⟩
  · rw [h3 0, (runPipe_inv cfg oracle locals L0 hE 0).1, pCacheState_mod 0]
    simpa using (runPipe_inv cfg oracle locals L0 hE 0).2.2.2.2
  · rw [h3 (k + 1), (runPipe_inv cfg oracle locals L0 hE (k + 1)).1,
      pCacheState_mod (k + 1)]
    simpa using (runPipe_inv cfg oracle locals L0 hE (k + 1)).2.2.2.2

/-- Witness for C9: one worker, delta-accumulation, constant model [[1]],
initial snapshot [2]; round 1 writes the initial snapshot back and round
2 writes back the merged snapshot oracle 1 = [9]. -/
theorem pipelined_writeback_w :
    writeBackAt ⟨1, 0, ⟨.none, 1/5, 600⟩⟩ (fun _ => [9]) (fun _ => [[1]])
      [2] 0 = [2] ∧
    writeBackAt ⟨1, 0, ⟨.none, 1/5, 600⟩⟩ (fun _ => [9]) (fun _ => [[1]])
      [2] 1 = [9] :=
  ⟨(pipelined_writeback ⟨1, 0, ⟨.none, 1/5, 600⟩⟩ (fun _ => [9])
      (fun _ => [[1]]) [2] (by norm_num)).1,
   (pipelined_writeback ⟨1, 0, ⟨.none, 1/5, 600⟩⟩ (fun _ => [9])
      (fun _ => [[1]]) [2] (by norm_num)).2.1 0⟩

/-- Counterexample for C9 as stated: under the elastic strategy
(elasticAdd = 1) the buffer written back in round 2 is the delta buffer
[5], while the partner cache slot holds [-5]; the write-back is not
taken from the partner cache slot. -/
theorem pipelined_writeback_cex :
    writeBackAt ⟨1, 1, ⟨.none, 1/5, 600⟩⟩ (fun _ => [5]) (fun _ => [[0]])
      [0] 1 = [5] ∧
    (runPipe ⟨1, 1, ⟨.none, 1/5, 600⟩⟩ (fun _ => [5]) (fun _ => [[0]])
        [0] 2).caches.getD
      (pCacheState ((runPipe ⟨1, 1, ⟨.none, 1/5, 600⟩⟩ (fun _ => [5])
        (fun _ => [[0]]) [0] 2).cacheIdx)) [] = [-5] ∧
    ([(5 : ℚ)] : List ℚ) ≠ [-5] := by
  have e1 : runPipe ⟨1, 1, ⟨.none, 1/5, 600⟩⟩ (fun _ => [5])
      (fun _ => [[0]]) [0] 2 =
      (ModelSyncPipe ⟨1, 1, ⟨.none, 1/5, 600⟩⟩ (fun _ => [5]) [[0]]
        ((ModelSyncPipe ⟨1, 1, ⟨.none, 1/5, 600⟩⟩ (fun _ => [5]) [[0]]
          (initPipeState [0])).1)).1 := rfl
  have e2 : writeBackAt ⟨1, 1, ⟨.none, 1/5, 600⟩⟩ (fun _ => [5])
      (fun _ => [[0]]) [0] 1 =
      (ModelSyncPipe ⟨1, 1, ⟨.none, 1/5, 600⟩⟩ (fun _ => [5]) [[0]]
        ((ModelSyncPipe ⟨1, 1, ⟨.none, 1/5, 600⟩⟩ (fun _ => [5]) [[0]]
          (initPipeState [0])).1)).2 := rfl
  rw [e1, e2]
  refine ⟨?_, ?_, ?_⟩ <;>
    norm_num [ModelSyncPipe, joinPending, taskBody, initPipeState,
      pCacheState, gather, gatherFrom, writeAt, bufSub, slice, List.getD]

/-! Scheduling trace of the pipelined rounds (C5).  Each pipelined
ModelSync call emits, in program order: the join of the previous round's
background task (lines 179-180; absent in round 0, where the
default-constructed thread of line 99 is not joinable), the slot
rotation (line 182), the buffer copies of the gather/write-back loop
(lines 188-221), and the spawn of this round's background task
(lines 223-283 for the device path, 285-307 for the host path).  A task
spawned in round k is in flight from its spawn until the join at the
start of round k + 1. -/

/-- One scheduling event of the pipelined protocol. -/
inductive PEvent
  | join (task : ℕ)
  | rotate (round : ℕ)
  | copyBufs (round : ℕ)
  | spawn (task : ℕ)
deriving DecidableEq

/-- Events of one pipelined ModelSync call, in program order. -/
def roundEvents : ℕ → List PEvent
  | 0 => [PEvent.rotate 0, PEvent.copyBufs 0, PEvent.spawn 0]
  | k + 1 => [PEvent.join k, PEvent.rotate (k + 1),
      PEvent.copyBufs (k + 1), PEvent.spawn (k + 1)]

/-- The trace of the first n pipelined ModelSync calls. -/
def pipelineTrace : ℕ → List PEvent
  | 0 => []
  | n + 1 => pipelineTrace n ++ roundEvents n

lemma pipelineTrace_succ (n : ℕ) :
    pipelineTrace (n + 1) = pipelineTrace n ++ roundEvents n := rfl

lemma pipelineTrace_length : ∀ n, (pipelineTrace n).length =
    if n = 0 then 0 else 4 * n - 1
  | 0 => rfl
  | n + 1 => by
      rw [pipelineTrace_succ, List.length_append, pipelineTrace_length n]
      cases n with
      | zero => rfl
      | succ m =>
          simp only [roundEvents, List.length_cons, List.length_nil]
          rw [if_neg (by omega : ¬ m + 1 = 0), if_neg (by omega : ¬ m + 1 + 1 = 0)]
          omega

lemma pipelineTrace_length_mono (a b : ℕ) (hab : a ≤ b) :
    (pipelineTrace a).length ≤ (pipelineTrace b).length := by
  induction b with
  | zero =>
      have h0 : a = 0 := Nat.le_zero.mp hab
      subst h0
      exact le_rfl
  | succ b ih =>
      rcases eq_or_lt_of_le hab with h | h
      · subst h; exact le_rfl
      · refine le_trans (ih (Nat.lt_succ_iff.mp h)) ?_
        rw [pipelineTrace_succ, List.length_append]
        exact Nat.le_add_right _ _

/-- Looking up position j of round n's block inside any trace that
contains round n. -/
lemma pipelineTrace_block : ∀ (n j m : ℕ), n < m →
    j < (roundEvents n).length →
    (pipelineTrace m)[(pipelineTrace n).length + j]? = (roundEvents n)[j]?
  | n, j, 0, h, _ => absurd h (Nat.not_lt_zero n)
  | n, j, m + 1, h, hj => by
      rcases Nat.lt_or_ge n m with h2 | h2
      · have hmono := pipelineTrace_length_mono (n + 1) m h2
        have hadd : (pipelineTrace (n + 1)).length =
            (pipelineTrace n).length + (roundEvents n).length := by
          rw [pipelineTrace_succ, List.length_append]
        have hlt : (pipelineTrace n).length + j <
            (pipelineTrace m).length := by omega
        rw [pipelineTrace_succ, List.getElem?_append_left hlt]
        exact pipelineTrace_block n j m h2 hj
      · have hnm : n = m := by omega
        subst hnm
        rw [pipelineTrace_succ,
          List.getElem?_append_right (Nat.le_add_right _ _)]
        simp

/-- Trace position of the join of task k: the first event of round
k + 1. -/
def joinPos (k : ℕ) : ℕ := 4 * k + 3

/-- Trace position of round r's slot rotation. -/
def rotatePos : ℕ → ℕ
  | 0 => 0
  | r + 1 => 4 * (r + 1)

/-- Trace position of round r's buffer copies. -/
def copyPos : ℕ → ℕ
  | 0 => 1
  | r + 1 => 4 * (r + 1) + 1

/-- Trace position of the spawn of task k: the last event of round k. -/
def spawnPos (k : ℕ) : ℕ := 4 * k + 2

lemma trace_join (n k : ℕ) (h : k + 1 < n) :
    (pipelineTrace n)[joinPos k]? = some (PEvent.join k) := by
  have hidx : joinPos k = (pipelineTrace (k + 1)).length + 0 := by
    rw [pipelineTrace_length]
    simp [joinPos]
    omega
  rw [hidx, pipelineTrace_block (k + 1) 0 n h (by simp [roundEvents])]
  simp [roundEvents]

lemma trace_spawn (n k : ℕ) (h : k < n) :
    (pipelineTrace n)[spawnPos k]? = some (PEvent.spawn k) := by
  cases k with
  | zero =>
      have hidx : spawnPos 0 = (pipelineTrace 0).length + 2 := rfl
      rw [hidx, pipelineTrace_block 0 2 n h (by simp [roundEvents])]
      simp [roundEvents]
  | succ m =>
      have hidx : spawnPos (m + 1) = (pipelineTrace (m + 1)).length + 3 := by
        rw [pipelineTrace_length]
        simp [spawnPos]
        omega
      rw [hidx, pipelineTrace_block (m + 1) 3 n h (by simp [roundEvents])]
      simp [roundEvents]

lemma trace_rotate (n r : ℕ) (h : r < n) :
    (pipelineTrace n)[rotatePos r]? = some (PEvent.rotate r) := by
  cases r with
  | zero =>
      have hidx : rotatePos 0 = (pipelineTrace 0).length + 0 := rfl
      rw [hidx, pipelineTrace_block 0 0 n h (by simp [roundEvents])]
      simp [roundEvents]
  | succ m =>
      have hidx : rotatePos (m + 1) = (pipelineTrace (m + 1)).length + 1 := by
        rw [pipelineTrace_length]
        simp [rotatePos]
        omega
      rw [hidx, pipelineTrace_block (m + 1) 1 n h (by simp [roundEvents])]
      simp [roundEvents]

lemma trace_copy (n r : ℕ) (h : r < n) :
    (pipelineTrace n)[copyPos r]? = some (PEvent.copyBufs r) := by
  cases r with
  | zero =>
      have hidx : copyPos 0 = (pipelineTrace 0).length + 1 := rfl
      rw [hidx, pipelineTrace_block 0 1 n h (by simp [roundEvents])]
      simp [roundEvents]
  | succ m =>
      have hidx : copyPos (m + 1) = (pipelineTrace (m + 1)).length + 2 := by
        rw [pipelineTrace_length]
        simp [copyPos]
        omega
      rw [hidx, pipelineTrace_block (m + 1) 2 n h (by simp [roundEvents])]
      simp [roundEvents]

/-- C5: in the pipelined scheduling trace, round k + 1 joins round k's
background task before its slot rotation, before its buffer copies, and
before it spawns its own task (so the effects of task k are complete
before any buffer it may use is touched again), and the in-flight
windows (from spawn to join) of two tasks never overlap: at most one
background task is ever in flight. -/
theorem at_most_one_in_flight (n k : ℕ) (hk : k + 1 < n) :
    (pipelineTrace n)[joinPos k]? = some (PEvent.join k) ∧
    (pipelineTrace n)[rotatePos (k + 1)]? = some (PEvent.rotate (k + 1)) ∧
    (pipelineTrace n)[copyPos (k + 1)]? = some (PEvent.copyBufs (k + 1)) ∧
    (pipelineTrace n)[spawnPos (k + 1)]? = some (PEvent.spawn (k + 1)) ∧
    joinPos k < rotatePos (k + 1) ∧
    joinPos k < copyPos (k + 1) ∧
    joinPos k < spawnPos (k + 1) ∧
    (∀ k1 k2 t, spawnPos k1 ≤ t → t < joinPos k1 →
      spawnPos k2 ≤ t → t < joinPos k2 → k1 = k2) := by
  refine ⟨trace_join n k hk, trace_rotate n (k + 1) (by omega),
    trace_copy n (k + 1) (by omega), trace_spawn n (k + 1) (by omega),
    ?_, ?_, ?_, ?_⟩
  · simp [joinPos, rotatePos]
    omega
  · simp [copyPos, joinPos]
    omega
  · simp [spawnPos, joinPos]
    omega
  · intro k1 k2 t h1 h2 h3 h4
    simp only [spawnPos, joinPos] at h1 h2 h3 h4
    omega

/-- Witness for C5 in a nine-round trace at k = 1. -/
theorem at_most_one_in_flight_w :
    (pipelineTrace 9)[joinPos 1]? = some (PEvent.join 1) ∧
    joinPos 1 < copyPos 2 :=
  ⟨(at_most_one_in_flight 9 1 (by norm_num)).1,
   (at_most_one_in_flight 9 1 (by norm_num)).2.2.2.2.2.1⟩

end MultiversoWrapper
